import Mathlib

/-!
Verification of the SafeClaw security gates against their source.

Two components are embedded:
* the Trust Cache Gate (`src/skill-review.ts`): hashing-keyed LLM review
  cache (`getCachedReview`, `cacheReview`, `callAnthropicReview`,
  `reviewSkillFile`, `reviewSkillDirectory`);
* the Egress Policy Resolver (`src/network-policy.ts`):
  `loadNetworkAllowlist`, `ensureDefaultAllowlist`, `resolveDomains`,
  `getNetworkArgs`.

Effectful TypeScript is embedded by explicit state passing.  A thrown
JavaScript exception that the source does not catch is an
`Except.error`; a `try`/`catch` in the source appears as a total branch
in the corresponding definition.  Library primitives at the I/O
boundary (the SHA-256 digest from node `crypto`, `fetch`, `JSON.parse`
of externally supplied text, DNS resolution) are supplied by an
environment record; each is a fixed function, so determinism over
identical inputs holds by construction, which is all the claims use.
-/

namespace SafeClaw

/-- Verdict payload returned by the reasoning service:
the `{safe, issues}` object of `callAnthropicReview`. -/
structure Verdict where
  safe : Bool
  issues : List String
deriving DecidableEq

/-- Persisted review record (`interface ReviewResult` in skill-review.ts):
`{safe: boolean, issues: string[], hash: string}`. -/
structure ReviewResult where
  safe : Bool
  issues : List String
  hash : String
deriving DecidableEq

/-- One stored cache file under the review cache directory.
`good r` is a readable file whose JSON parses to the record `r`;
`bad` is a file that is unreadable or whose contents make
`JSON.parse` throw (both are caught inside `getCachedReview`). -/
inductive CacheEntry
  | good (r : ReviewResult)
  | bad
deriving DecidableEq

/-- An uncaught JavaScript exception escaping one of the embedded
functions. `fsWrite` is a throw from `fs.mkdirSync`/`fs.writeFileSync`
in `cacheReview`; `fetchBodyNotJson` is a rejection of
`response.json()` in `callAnthropicReview`; `fsRead` is a throw from
`fs.readdirSync`/`fs.readFileSync` in the directory walk. -/
inductive JsError
  | fsWrite
  | fetchBodyNotJson
  | fsRead
deriving DecidableEq

/-- One element of `data.content` in the Anthropic response envelope. -/
structure ContentBlock where
  text : Option String
deriving DecidableEq

/-- Parsed Anthropic response envelope: the
`{ content: Array<{ text: string }> }` shape read by
`callAnthropicReview`, with optional fields, because the source
navigates it with optional chaining. -/
structure Envelope where
  content : Option (List ContentBlock)
deriving DecidableEq

/-- Outcome of the `fetch` to the reasoning service.
`notOk s` is a response with `response.ok` false and HTTP status `s`;
`ok none` is an OK response whose body is not valid JSON, so
`await response.json()` rejects; `ok (some e)` is an OK response whose
body parsed to the envelope `e`. -/
inductive FetchResult
  | notOk (status : Nat)
  | ok (body : Option Envelope)
deriving DecidableEq

/-- External world of the Trust Cache Gate.
`hashFn` models `crypto.createHash('sha256').update(c).digest('hex')`:
an arbitrary fixed digest function (any deterministic digest satisfies
the claims; determinism holds because it is a function).
`apiKey` is `readEnvFile(['ANTHROPIC_API_KEY']).ANTHROPIC_API_KEY`.
`fetch` gives the outcome of the POST for a given document content.
`parseJson` models `JSON.parse` applied to the verdict text extracted
from the envelope: `some v` when it yields a verdict, `none` when it
throws. `cacheWritable` tells whether `fs.mkdirSync` +
`fs.writeFileSync` in `cacheReview` succeed or throw. -/
structure Env where
  hashFn : String → String
  apiKey : Option String
  fetch : String → FetchResult
  parseJson : String → Option Verdict
  cacheWritable : Bool

/-- Mutable world threaded through the gate: the cache directory
(association list keyed by hash, most recent write first, mirroring
that `writeFileSync` overwrites), a ghost counter of external
reasoning-service calls issued, and a ghost chronological trace of the
review results returned to callers. -/
structure St where
  cache : List (String × CacheEntry)
  calls : Nat
  reviewed : List ReviewResult
deriving DecidableEq

/-- Digest of a document (`fileHash` in skill-review.ts), supplied by
the environment. -/
def fileHash (env : Env) (content : String) : String :=
  env.hashFn content

/-- Find the cache file stored for a hash, if any
(`fs.existsSync` on the cache path). -/
def lookupEntry : List (String × CacheEntry) → String → Option CacheEntry
  | [], _ => none
  | (k, e) :: rest, h => if k = h then some e else lookupEntry rest h

/-- Embedding of `getCachedReview`: absent file gives `null`; a file
that fails to read or parse is caught and gives `null`; otherwise the
parsed record is returned. -/
def getCachedReview (cache : List (String × CacheEntry)) (h : String) :
    Option ReviewResult :=
  match lookupEntry cache h with
  | none => none
  | some (CacheEntry.good r) => some r
  | some CacheEntry.bad => none

/-- Embedding of `cacheReview`: writes the record keyed by its hash.
The source contains no `try`/`catch`, so a filesystem failure throws
out of the function. -/
def cacheReview (env : Env) (r : ReviewResult) (s : St) : Except JsError St :=
  if env.cacheWritable then
    Except.ok { s with cache := (r.hash, CacheEntry.good r) :: s.cache }
  else
    Except.error JsError.fsWrite

/-- Text extraction `data.content?.[0]?.text?.trim() || ''` from the
response envelope. -/
def extractText (e : Envelope) : String :=
  match e.content with
  | some (b :: _) =>
    match b.text with
    | some t => t.trim
    | none => ""
  | _ => ""

/-- Embedding of `callAnthropicReview`.  Without an API key the review
is skipped and reported safe.  With a key a `fetch` is issued (the
ghost call counter increments): a non-OK status degrades to safe with
a warning; a body that is not JSON makes `await response.json()`
reject, and nothing in the source catches that; `JSON.parse` failure
on the extracted verdict text is caught and degrades to safe with a
warning. -/
def callAnthropicReview (env : Env) (content : String) (s : St) :
    Except JsError Verdict × St :=
  match env.apiKey with
  | none => (Except.ok ⟨true, []⟩, s)
  | some _ =>
    let s' : St := { s with calls := s.calls + 1 }
    match env.fetch content with
    | FetchResult.notOk _ =>
      (Except.ok ⟨true, ["API call failed, review skipped"]⟩, s')
    | FetchResult.ok none => (Except.error JsError.fetchBodyNotJson, s')
    | FetchResult.ok (some envl) =>
      match env.parseJson (extractText envl) with
      | some v => (Except.ok v, s')
      | none =>
        (Except.ok ⟨true, ["Unparseable response, review skipped"]⟩, s')

/-- Embedding of `reviewSkillFile`, taking the document content that
the source obtains with `fs.readFileSync`.  Cache hit returns the
cached record unchanged; on a miss the external review runs, the
result is persisted by `cacheReview`, and errors from either step
propagate uncaught.  Every record returned to the caller is appended
to the ghost `reviewed` trace. -/
def reviewSkillFile (env : Env) (content : String) (s : St) :
    Except JsError (ReviewResult × St) :=
  let hash := fileHash env content
  match getCachedReview s.cache hash with
  | some cached =>
    Except.ok (cached, { s with reviewed := s.reviewed ++ [cached] })
  | none =>
    match callAnthropicReview env content s with
    | (Except.error e, _) => Except.error e
    | (Except.ok v, s1) =>
      let result : ReviewResult := ⟨v.safe, v.issues, hash⟩
      match cacheReview env result s1 with
      | Except.error e => Except.error e
      | Except.ok s2 =>
        Except.ok (result, { s2 with reviewed := s2.reviewed ++ [result] })

/-- Filesystem tree node for the directory walk: a regular file with
its content, or a directory with its named children. -/
inductive FsNode
  | file (content : String)
  | dir (entries : List (String × FsNode))

/-- Suffix test on strings at the character level, modelling the
JavaScript `file.endsWith('.md')` check. -/
def strEndsWith (s suffix : String) : Bool :=
  suffix.data.isSuffixOf s.data

/-- Collection phase of `reviewSkillDirectory`: iterate the top-level
entries, skip any entry that is not a directory
(`fs.statSync(dir).isDirectory()`), and inside each directory keep the
children whose name ends in `.md`, paired with their joined path. -/
def collectMdFiles (base : String) : List (String × FsNode) → List (String × FsNode)
  | [] => []
  | (_, FsNode.file _) :: rest => collectMdFiles base rest
  | (name, FsNode.dir sub) :: rest =>
    (sub.filter (fun e => strEndsWith e.1 ".md")).map
      (fun e => (base ++ "/" ++ name ++ "/" ++ e.1, e.2)) ++
    collectMdFiles base rest

/-- Review loop of `reviewSkillDirectory`: review each collected path
in order, accumulating `allSafe`.  An unsafe verdict only clears the
flag (the source logs and continues); reading a collected node that is
actually a directory throws `EISDIR` out of `fs.readFileSync`. -/
def reviewFiles (env : Env) : List (String × FsNode) → Bool → St →
    Except JsError (Bool × St)
  | [], allSafe, s => Except.ok (allSafe, s)
  | (_, FsNode.dir _) :: _, _, _ => Except.error JsError.fsRead
  | (_, FsNode.file content) :: rest, allSafe, s =>
    match reviewSkillFile env content s with
    | Except.error e => Except.error e
    | Except.ok (r, s') => reviewFiles env rest (allSafe && r.safe) s'

/-- Embedding of `reviewSkillDirectory`.  `root` is the node at the
given path (`none` when `fs.existsSync` is false, in which case the
source returns `true` at once).  A path naming a regular file makes
`fs.readdirSync` throw.  With no collected markdown files the source
returns `true` before the loop. -/
def reviewSkillDirectory (env : Env) (skillsSrcDir : String)
    (root : Option FsNode) (s : St) : Except JsError (Bool × St) :=
  match root with
  | none => Except.ok (true, s)
  | some (FsNode.file _) => Except.error JsError.fsRead
  | some (FsNode.dir entries) =>
    let mdFiles := collectMdFiles skillsSrcDir entries
    if mdFiles.isEmpty then Except.ok (true, s)
    else reviewFiles env mdFiles true s

end SafeClaw

namespace SafeClaw.NetworkPolicy

/-- JavaScript value found in the `enabled` field of the parsed
allowlist file: absent, the boolean `true`, the boolean `false`, or
any other value.  The source keeps the policy enabled by
`data.enabled !== false`. -/
inductive EnabledField
  | absent
  | tru
  | fls
  | other
deriving DecidableEq

/-- JavaScript value found in the `allowed_domains` field: an array of
strings, or anything failing `Array.isArray` (including absent). -/
inductive DomainsField
  | arr (ds : List String)
  | notArr
deriving DecidableEq

/-- Persisted allowlist file as `JSON.parse` sees it: `invalid` when
parsing throws, otherwise the two fields the source inspects. -/
inductive ConfigFile
  | invalid
  | wellFormed (enabled : EnabledField) (domains : DomainsField)
deriving DecidableEq

/-- The fixed `DEFAULT_ALLOWED_DOMAINS` list of network-policy.ts. -/
def DEFAULT_ALLOWED_DOMAINS : List String :=
  ["api.anthropic.com", "cdn.anthropic.com", "sentry.io", "statsig.anthropic.com"]

/-- The `NetworkAllowlist` interface of network-policy.ts. -/
structure NetworkAllowlist where
  enabled : Bool
  allowed_domains : List String
deriving DecidableEq

/-- Embedding of `loadNetworkAllowlist`.  `store` is the file at
`ALLOWLIST_PATH` (`none` when `fs.existsSync` is false).  A parse
failure is caught and falls through to the default policy.  The
function only reads the filesystem; it performs no write. -/
def loadNetworkAllowlist (store : Option ConfigFile) : NetworkAllowlist :=
  match store with
  | some (ConfigFile.wellFormed e d) =>
    { enabled := match e with | EnabledField.fls => false | _ => true,
      allowed_domains :=
        match d with
        | DomainsField.arr ds => ds
        | DomainsField.notArr => DEFAULT_ALLOWED_DOMAINS }
  | some ConfigFile.invalid =>
    { enabled := true, allowed_domains := DEFAULT_ALLOWED_DOMAINS }
  | none => { enabled := true, allowed_domains := DEFAULT_ALLOWED_DOMAINS }

/-- State-passing form of `loadNetworkAllowlist`: it returns the
loaded policy together with the store, which is unchanged because the
source function contains no filesystem write. -/
def loadNetworkAllowlistS (store : Option ConfigFile) :
    NetworkAllowlist × Option ConfigFile :=
  (loadNetworkAllowlist store, store)

/-- Embedding of `ensureDefaultAllowlist`: when no file exists, write
the default config (`enabled: true` and the default domain list);
otherwise leave the store untouched. -/
def ensureDefaultAllowlist (store : Option ConfigFile) : Option ConfigFile :=
  match store with
  | none =>
    some (ConfigFile.wellFormed EnabledField.tru
      (DomainsField.arr DEFAULT_ALLOWED_DOMAINS))
  | some f => some f

/-- DNS world: outcome of `dns.resolve4` and `dns.resolve6` per
domain; `Except.error` is a rejected lookup. -/
structure DnsEnv where
  resolve4 : String → Except Unit (List String)
  resolve6 : String → Except Unit (List String)

/-- JavaScript `Set.add` on the insertion-ordered set of addresses. -/
def addIfAbsent (l : List String) (a : String) : List String :=
  if a ∈ l then l else l ++ [a]

/-- Add every address of one resolution result to the set. -/
def addAll (ips : List String) (addrs : List String) : List String :=
  addrs.foldl addIfAbsent ips

/-- Body of the `for (const domain of domains)` loop in
`resolveDomains`: IPv4 then IPv6 resolution, each failure caught
independently (the source logs the IPv4 one, ignores the IPv6 one). -/
def resolveStep (env : DnsEnv) (ips : List String) (domain : String) : List String :=
  let ips1 :=
    match env.resolve4 domain with
    | Except.ok addrs => addAll ips addrs
    | Except.error _ => ips
  match env.resolve6 domain with
  | Except.ok addrs => addAll ips1 addrs
  | Except.error _ => ips1

/-- Embedding of `resolveDomains`: fold the per-domain step over the
list, starting from the empty set, and return the accumulated
insertion-ordered addresses (`[...ips]`).  All failures are caught
inside the step, so the function is total. -/
def resolveDomains (env : DnsEnv) (domains : List String) : List String :=
  domains.foldl (resolveStep env) []

/-- Embedding of `getNetworkArgs`: disabled policy gives no arguments;
an empty resolved address set gives no arguments (logged as degraded);
otherwise the capability grant plus the two environment pairs, with
comma-joined lists. -/
def getNetworkArgs (store : Option ConfigFile) (env : DnsEnv) : List String :=
  let policy := loadNetworkAllowlist store
  if !policy.enabled then []
  else
    let allowedIps := resolveDomains env policy.allowed_domains
    if allowedIps.length = 0 then []
    else
      let allowedDomainsEnv := String.intercalate "," policy.allowed_domains
      let allowedIpsEnv := String.intercalate "," allowedIps
      ["--cap-add=NET_ADMIN",
       "-e", "ALLOWED_EGRESS_IPS=" ++ allowedIpsEnv,
       "-e", "ALLOWED_EGRESS_DOMAINS=" ++ allowedDomainsEnv]

end SafeClaw.NetworkPolicy

namespace SafeClaw.NetworkPolicy

/-- Helper: a fold of the per-domain resolution step leaves the
accumulator unchanged when every domain fails both address families. -/
theorem foldl_resolveStep_of_all_fail (env : DnsEnv) :
    ∀ (domains : List String) (acc : List String),
      (∀ x ∈ domains,
        env.resolve4 x = Except.error () ∧ env.resolve6 x = Except.error ()) →
      domains.foldl (resolveStep env) acc = acc := by
  intro domains
  induction domains with
  | nil => intro acc _; rfl
  | cons d rest ih =>
    intro acc h
    have hd := h d (List.mem_cons_self d rest)
    have hstep : resolveStep env acc d = acc := by
      unfold resolveStep
      rw [hd.1, hd.2]
    rw [List.foldl_cons, hstep]
    exact ih acc (fun x hx => h x (List.mem_cons_of_mem d hx))

/-- C8: resolveDomains (resolveAddresses) is total — every per-domain,
per-family DNS failure is caught inside the loop body — so a list of
only unresolvable domains yields the empty address set, and one
domain's total failure never affects the resolution of the remaining
domains. -/
theorem c8_resolve_never_aborts (env : DnsEnv) (domains : List String)
    (d : String) (rest : List String) :
    ((∀ x ∈ domains,
        env.resolve4 x = Except.error () ∧ env.resolve6 x = Except.error ()) →
      resolveDomains env domains = []) ∧
    (env.resolve4 d = Except.error () → env.resolve6 d = Except.error () →
      resolveDomains env (d :: rest) = resolveDomains env rest) := by
  constructor
  · intro h
    exact foldl_resolveStep_of_all_fail env domains [] h
  · intro h4 h6
    have hstep : resolveStep env [] d = [] := by
      unfold resolveStep
      rw [h4, h6]
    unfold resolveDomains
    rw [List.foldl_cons, hstep]

/-- Witness for C8 at the spec's own example input: a list holding
only an unresolvable domain gives the empty address set. -/
theorem c8_witness :
    resolveDomains
      ⟨fun _ => Except.error (), fun _ => Except.error ()⟩
      ["nonexistent-domain-xyz.invalid"] = [] :=
  (c8_resolve_never_aborts
      ⟨fun _ => Except.error (), fun _ => Except.error ()⟩
      ["nonexistent-domain-xyz.invalid"] "x" []).1
    (fun _ _ => ⟨rfl, rfl⟩)

/-- C4 counterexample: on an absent config file, `loadNetworkAllowlist`
returns the default policy but persists nothing — the store component
after the call is still `none`, refuting the claim that this function
writes the defaults to disk (the write lives in
`ensureDefaultAllowlist`). -/
theorem c4_counterexample :
    loadNetworkAllowlistS none =
      ({ enabled := true, allowed_domains := DEFAULT_ALLOWED_DOMAINS }, none) :=
  rfl

/-- C4 (amended): `loadNetworkAllowlist` alone returns the fixed
default policy on an absent file without persisting anything; the
startup initializer `ensureDefaultAllowlist` is what persists the
default file, after which a load returns the default policy, a second
initialization re-writes nothing, and a second load returns an
identical result. -/
theorem c4_default_policy_init :
    loadNetworkAllowlistS none =
      ({ enabled := true, allowed_domains := DEFAULT_ALLOWED_DOMAINS }, none) ∧
    ensureDefaultAllowlist none =
      some (ConfigFile.wellFormed EnabledField.tru
        (DomainsField.arr DEFAULT_ALLOWED_DOMAINS)) ∧
    loadNetworkAllowlist (ensureDefaultAllowlist none) =
      { enabled := true, allowed_domains := DEFAULT_ALLOWED_DOMAINS } ∧
    ensureDefaultAllowlist (ensureDefaultAllowlist none) =
      ensureDefaultAllowlist none ∧
    loadNetworkAllowlist (ensureDefaultAllowlist (ensureDefaultAllowlist none)) =
      loadNetworkAllowlist (ensureDefaultAllowlist none) :=
  ⟨rfl, rfl, rfl, rfl, rfl⟩

/-- C5: with the active policy enabled for exactly `example.com`, an
IPv4 resolution to exactly `93.184.216.34`, and no IPv6 addresses
(rejected lookup or empty result), `getNetworkArgs` returns exactly
the five launch arguments in order. -/
theorem c5_launch_args_example_com (store : Option ConfigFile) (env : DnsEnv)
    (hp : loadNetworkAllowlist store =
      { enabled := true, allowed_domains := ["example.com"] })
    (h4 : env.resolve4 "example.com" = Except.ok ["93.184.216.34"])
    (h6 : env.resolve6 "example.com" = Except.error () ∨
          env.resolve6 "example.com" = Except.ok []) :
    getNetworkArgs store env =
      ["--cap-add=NET_ADMIN",
       "-e", "ALLOWED_EGRESS_IPS=93.184.216.34",
       "-e", "ALLOWED_EGRESS_DOMAINS=example.com"] := by
  have hres : resolveDomains env ["example.com"] = ["93.184.216.34"] := by
    unfold resolveDomains
    rw [List.foldl_cons, List.foldl_nil]
    unfold resolveStep
    rw [h4]
    rcases h6 with h6 | h6 <;> rw [h6] <;> rfl
  unfold getNetworkArgs
  rw [hp]
  simp only [hres]
  rfl

/-- Witness for C5 at a fully concrete store and DNS environment. -/
theorem c5_witness :
    getNetworkArgs
      (some (ConfigFile.wellFormed EnabledField.tru
        (DomainsField.arr ["example.com"])))
      ⟨fun _ => Except.ok ["93.184.216.34"], fun _ => Except.error ()⟩ =
      ["--cap-add=NET_ADMIN",
       "-e", "ALLOWED_EGRESS_IPS=93.184.216.34",
       "-e", "ALLOWED_EGRESS_DOMAINS=example.com"] :=
  c5_launch_args_example_com
    (some (ConfigFile.wellFormed EnabledField.tru
      (DomainsField.arr ["example.com"])))
    ⟨fun _ => Except.ok ["93.184.216.34"], fun _ => Except.error ()⟩
    rfl rfl (Or.inl rfl)

end SafeClaw.NetworkPolicy

namespace SafeClaw

/-- Helper: a freshly written good cache record is found by the next
lookup of the same hash. -/
theorem getCachedReview_cons_self (h : String) (r : ReviewResult)
    (cache : List (String × CacheEntry)) :
    getCachedReview ((h, CacheEntry.good r) :: cache) h = some r := by
  simp [getCachedReview, lookupEntry]

/-- Helper: with an API key present and a response body that is valid
JSON, the external call returns some verdict successfully and
increments the call counter by exactly one. -/
theorem callAnthropicReview_some_key (env : Env) (content : String) (s : St)
    (k : String) (hk : env.apiKey = some k)
    (hfetch : env.fetch content ≠ FetchResult.ok none) :
    ∃ v, callAnthropicReview env content s =
      (Except.ok v, { s with calls := s.calls + 1 }) := by
  cases hf : env.fetch content with
  | notOk st =>
    refine ⟨⟨true, ["API call failed, review skipped"]⟩, ?_⟩
    simp only [callAnthropicReview, hk, hf]
  | ok body =>
    cases body with
    | none => exact absurd hf hfetch
    | some envl =>
      cases hp : env.parseJson (extractText envl) with
      | none =>
        refine ⟨⟨true, ["Unparseable response, review skipped"]⟩, ?_⟩
        simp only [callAnthropicReview, hk, hf, hp]
      | some v =>
        refine ⟨v, ?_⟩
        simp only [callAnthropicReview, hk, hf, hp]

/-- Helper: a cache hit short-circuits the review, returning the
cached record with the world unchanged apart from the ghost trace. -/
theorem reviewSkillFile_hit (env : Env) (content : String) (s : St)
    (v : ReviewResult)
    (hv : getCachedReview s.cache (fileHash env content) = some v) :
    reviewSkillFile env content s =
      Except.ok (v, { s with reviewed := s.reviewed ++ [v] }) := by
  simp only [reviewSkillFile, hv]

/-- Helper: on a cache miss with a successful external call and a
writable cache, the review returns the fresh record and persists it
under the document's hash. -/
theorem reviewSkillFile_miss_success (env : Env) (content : String) (s : St)
    (v : Verdict) (s1 : St)
    (hmiss : getCachedReview s.cache (fileHash env content) = none)
    (hw : env.cacheWritable = true)
    (hcall : callAnthropicReview env content s = (Except.ok v, s1)) :
    reviewSkillFile env content s =
      Except.ok (⟨v.safe, v.issues, fileHash env content⟩,
        { s1 with
          cache := (fileHash env content,
            CacheEntry.good ⟨v.safe, v.issues, fileHash env content⟩) :: s1.cache,
          reviewed := s1.reviewed ++
            [⟨v.safe, v.issues, fileHash env content⟩] }) := by
  simp only [reviewSkillFile, hmiss, hcall, cacheReview, hw, if_true]

/-- C1: a readable cached verdict for the document's hash is returned
immediately with no external reasoning-service call (the world beyond
the ghost trace is untouched); and starting from a miss, with a
writable cache, an API key, and a JSON response body, two calls on
byte-identical content issue exactly one external call in total: the
first increments the call counter once, the second returns the same
verdict with the counter unchanged. -/
theorem c1_review_cache_hit_single_external_call
    (env : Env) (content : String) (s : St) :
    (∀ v, getCachedReview s.cache (fileHash env content) = some v →
      reviewSkillFile env content s =
        Except.ok (v, { s with reviewed := s.reviewed ++ [v] })) ∧
    (getCachedReview s.cache (fileHash env content) = none →
     env.cacheWritable = true →
     env.apiKey.isSome = true →
     env.fetch content ≠ FetchResult.ok none →
     ∃ r s1 s2,
       reviewSkillFile env content s = Except.ok (r, s1) ∧
       s1.calls = s.calls + 1 ∧
       reviewSkillFile env content s1 = Except.ok (r, s2) ∧
       s2.calls = s1.calls) := by
  constructor
  · intro v hv
    exact reviewSkillFile_hit env content s v hv
  · intro hmiss hw hkey hfetch
    obtain ⟨k, hk⟩ := Option.isSome_iff_exists.mp hkey
    obtain ⟨v, hcall⟩ := callAnthropicReview_some_key env content s k hk hfetch
    have h1 := reviewSkillFile_miss_success env content s v _ hmiss hw hcall
    have h2 := reviewSkillFile_hit env content
      ⟨(fileHash env content,
          CacheEntry.good ⟨v.safe, v.issues, fileHash env content⟩) :: s.cache,
        s.calls + 1,
        s.reviewed ++ [⟨v.safe, v.issues, fileHash env content⟩]⟩
      ⟨v.safe, v.issues, fileHash env content⟩
      (by simp [getCachedReview, lookupEntry])
    exact ⟨⟨v.safe, v.issues, fileHash env content⟩, _, _, h1, rfl, h2, rfl⟩

/-- Witness for C1: a concrete cache hit returning the cached record
with no call, and a concrete miss followed by a second call with one
external call in total. -/
theorem c1_witness :
    (reviewSkillFile
        ⟨fun c => c, some "k", fun _ => FetchResult.notOk 500, fun _ => none, true⟩
        "doc"
        ⟨[("doc", CacheEntry.good ⟨true, [], "doc"⟩)], 0, []⟩ =
      Except.ok (⟨true, [], "doc"⟩,
        ⟨[("doc", CacheEntry.good ⟨true, [], "doc"⟩)], 0, [⟨true, [], "doc"⟩]⟩)) ∧
    (∃ r s1 s2,
      reviewSkillFile
        ⟨fun c => c, some "k", fun _ => FetchResult.notOk 500, fun _ => none, true⟩
        "doc" ⟨[], 0, []⟩ = Except.ok (r, s1) ∧
      s1.calls = (0 : Nat) + 1 ∧
      reviewSkillFile
        ⟨fun c => c, some "k", fun _ => FetchResult.notOk 500, fun _ => none, true⟩
        "doc" s1 = Except.ok (r, s2) ∧
      s2.calls = s1.calls) :=
  ⟨(c1_review_cache_hit_single_external_call
      ⟨fun c => c, some "k", fun _ => FetchResult.notOk 500, fun _ => none, true⟩
      "doc" ⟨[("doc", CacheEntry.good ⟨true, [], "doc"⟩)], 0, []⟩).1
      ⟨true, [], "doc"⟩ rfl,
   (c1_review_cache_hit_single_external_call
      ⟨fun c => c, some "k", fun _ => FetchResult.notOk 500, fun _ => none, true⟩
      "doc" ⟨[], 0, []⟩).2 rfl rfl rfl (by decide)⟩

/-- C2 counterexample: with the cache directory unwritable, a
concrete review does not return its verdict — the filesystem
exception from `cacheReview` propagates out of `reviewSkillFile`. -/
theorem c2_counterexample :
    reviewSkillFile
      ⟨fun c => c, none, fun _ => FetchResult.notOk 500, fun _ => none, false⟩
      "doc" ⟨[], 0, []⟩ = Except.error JsError.fsWrite :=
  rfl

/-- C2 (amended): when writing the verdict to the cache store fails,
`reviewSkillFile` propagates the failure to its caller instead of
returning the computed verdict — the source wraps neither
`cacheReview` nor its call site in a `try`/`catch`. -/
theorem c2_cache_write_failure_propagates
    (env : Env) (content : String) (s : St) (v : Verdict) (s1 : St)
    (hmiss : getCachedReview s.cache (fileHash env content) = none)
    (hw : env.cacheWritable = false)
    (hcall : callAnthropicReview env content s = (Except.ok v, s1)) :
    reviewSkillFile env content s = Except.error JsError.fsWrite := by
  simp [reviewSkillFile, hmiss, hcall, cacheReview, hw]

/-- Witness for C2 (amended) at a concrete unwritable-cache state. -/
theorem c2_witness :
    reviewSkillFile
      ⟨fun c => c, none, fun _ => FetchResult.notOk 500, fun _ => none, false⟩
      "other doc" ⟨[], 0, []⟩ = Except.error JsError.fsWrite :=
  c2_cache_write_failure_propagates
    ⟨fun c => c, none, fun _ => FetchResult.notOk 500, fun _ => none, false⟩
    "other doc" ⟨[], 0, []⟩ ⟨true, []⟩ ⟨[], 0, []⟩ rfl rfl rfl

end SafeClaw

namespace SafeClaw

/-- C3 counterexample: an OK response whose HTTP body is not valid
JSON makes `await response.json()` reject, and neither
`callAnthropicReview` nor `reviewSkillFile` catches that rejection, so
a concrete review propagates an error instead of returning a safe
verdict with a warning. -/
theorem c3_counterexample :
    reviewSkillFile
      ⟨fun c => c, some "k", fun _ => FetchResult.ok none, fun _ => none, true⟩
      "doc" ⟨[], 0, []⟩ = Except.error JsError.fetchBodyNotJson :=
  rfl

/-- C3 (amended): for a response with a non-OK HTTP status, or an OK
response whose body parses as JSON but whose extracted verdict text
does not parse, the review returns safe with the corresponding single
warning issue and persists that verdict under the document's hash
before returning; an OK response whose body itself is not valid JSON
instead propagates an uncaught error. -/
theorem c3_degraded_verdict_persisted
    (env : Env) (content : String) (s : St) (k : String)
    (hk : env.apiKey = some k)
    (hmiss : getCachedReview s.cache (fileHash env content) = none)
    (hw : env.cacheWritable = true) :
    (∀ st, env.fetch content = FetchResult.notOk st →
      reviewSkillFile env content s =
        Except.ok
          (⟨true, ["API call failed, review skipped"], fileHash env content⟩,
            ⟨(fileHash env content, CacheEntry.good
                ⟨true, ["API call failed, review skipped"],
                  fileHash env content⟩) :: s.cache,
              s.calls + 1,
              s.reviewed ++ [⟨true, ["API call failed, review skipped"],
                fileHash env content⟩]⟩) ∧
      getCachedReview
        ((fileHash env content, CacheEntry.good
            ⟨true, ["API call failed, review skipped"],
              fileHash env content⟩) :: s.cache)
        (fileHash env content) =
          some ⟨true, ["API call failed, review skipped"],
            fileHash env content⟩) ∧
    (∀ envl, env.fetch content = FetchResult.ok (some envl) →
      env.parseJson (extractText envl) = none →
      reviewSkillFile env content s =
        Except.ok
          (⟨true, ["Unparseable response, review skipped"],
              fileHash env content⟩,
            ⟨(fileHash env content, CacheEntry.good
                ⟨true, ["Unparseable response, review skipped"],
                  fileHash env content⟩) :: s.cache,
              s.calls + 1,
              s.reviewed ++ [⟨true, ["Unparseable response, review skipped"],
                fileHash env content⟩]⟩) ∧
      getCachedReview
        ((fileHash env content, CacheEntry.good
            ⟨true, ["Unparseable response, review skipped"],
              fileHash env content⟩) :: s.cache)
        (fileHash env content) =
          some ⟨true, ["Unparseable response, review skipped"],
            fileHash env content⟩) := by
  constructor
  · intro st hf
    have hcall : callAnthropicReview env content s =
        (Except.ok ⟨true, ["API call failed, review skipped"]⟩,
          { s with calls := s.calls + 1 }) := by
      simp only [callAnthropicReview, hk, hf]
    exact ⟨reviewSkillFile_miss_success env content s
        ⟨true, ["API call failed, review skipped"]⟩ _ hmiss hw hcall,
      getCachedReview_cons_self _ _ _⟩
  · intro envl hf hp
    have hcall : callAnthropicReview env content s =
        (Except.ok ⟨true, ["Unparseable response, review skipped"]⟩,
          { s with calls := s.calls + 1 }) := by
      simp only [callAnthropicReview, hk, hf, hp]
    exact ⟨reviewSkillFile_miss_success env content s
        ⟨true, ["Unparseable response, review skipped"]⟩ _ hmiss hw hcall,
      getCachedReview_cons_self _ _ _⟩

/-- Witness for C3 (amended): a concrete non-OK response and a
concrete OK response with unparseable verdict text, each returning a
persisted safe-with-warning verdict. -/
theorem c3_witness :
    (reviewSkillFile
        ⟨fun c => c, some "k", fun _ => FetchResult.notOk 500, fun _ => none, true⟩
        "doc" ⟨[], 0, []⟩ =
      Except.ok
        (⟨true, ["API call failed, review skipped"], "doc"⟩,
          ⟨[("doc", CacheEntry.good
              ⟨true, ["API call failed, review skipped"], "doc"⟩)],
            0 + 1,
            [⟨true, ["API call failed, review skipped"], "doc"⟩]⟩) ∧
      getCachedReview
        [("doc", CacheEntry.good
            ⟨true, ["API call failed, review skipped"], "doc"⟩)] "doc" =
          some ⟨true, ["API call failed, review skipped"], "doc"⟩) ∧
    (reviewSkillFile
        ⟨fun c => c, some "k",
          fun _ => FetchResult.ok (some ⟨some [⟨some "nonsense"⟩]⟩),
          fun _ => none, true⟩
        "doc" ⟨[], 0, []⟩ =
      Except.ok
        (⟨true, ["Unparseable response, review skipped"], "doc"⟩,
          ⟨[("doc", CacheEntry.good
              ⟨true, ["Unparseable response, review skipped"], "doc"⟩)],
            0 + 1,
            [⟨true, ["Unparseable response, review skipped"], "doc"⟩]⟩) ∧
      getCachedReview
        [("doc", CacheEntry.good
            ⟨true, ["Unparseable response, review skipped"], "doc"⟩)] "doc" =
          some ⟨true, ["Unparseable response, review skipped"], "doc"⟩) :=
  ⟨(c3_degraded_verdict_persisted
      ⟨fun c => c, some "k", fun _ => FetchResult.notOk 500, fun _ => none, true⟩
      "doc" ⟨[], 0, []⟩ "k" rfl rfl rfl).1 500 rfl,
   (c3_degraded_verdict_persisted
      ⟨fun c => c, some "k",
        fun _ => FetchResult.ok (some ⟨some [⟨some "nonsense"⟩]⟩),
        fun _ => none, true⟩
      "doc" ⟨[], 0, []⟩ "k" rfl rfl rfl).2 ⟨some [⟨some "nonsense"⟩]⟩ rfl rfl⟩

/-- C7: a cache entry that is unreadable or whose contents fail to
parse is treated exactly as an absent entry — `getCachedReview`
returns the absent value, never a verdict — and on such an entry the
review path proceeds to a fresh external review (one external call is
issued, given an API key, a writable cache, and a JSON response
body). -/
theorem c7_malformed_cache_absent
    (cache : List (String × CacheEntry)) (h : String)
    (env : Env) (content : String) (s : St) (k : String) :
    (lookupEntry cache h = some CacheEntry.bad →
      getCachedReview cache h = none) ∧
    (lookupEntry s.cache (fileHash env content) = some CacheEntry.bad →
     env.apiKey = some k →
     env.cacheWritable = true →
     env.fetch content ≠ FetchResult.ok none →
     ∃ r s', reviewSkillFile env content s = Except.ok (r, s') ∧
       s'.calls = s.calls + 1) := by
  have habs : ∀ (c : List (String × CacheEntry)) (hh : String),
      lookupEntry c hh = some CacheEntry.bad → getCachedReview c hh = none := by
    intro c hh hb
    unfold getCachedReview
    rw [hb]
  constructor
  · exact habs cache h
  · intro hb hk hw hfetch
    obtain ⟨v, hcall⟩ := callAnthropicReview_some_key env content s k hk hfetch
    exact ⟨_, _,
      reviewSkillFile_miss_success env content s v _ (habs _ _ hb) hw hcall, rfl⟩

/-- Witness for C7: a concrete malformed cache entry is reported
absent, and a review over it issues one fresh external call. -/
theorem c7_witness :
    (getCachedReview [("h", CacheEntry.bad)] "h" = none) ∧
    (∃ r s',
      reviewSkillFile
        ⟨fun _ => "h", some "k", fun _ => FetchResult.notOk 404, fun _ => none, true⟩
        "c" ⟨[("h", CacheEntry.bad)], 0, []⟩ = Except.ok (r, s') ∧
      s'.calls = 0 + 1) :=
  ⟨(c7_malformed_cache_absent [("h", CacheEntry.bad)] "h"
      ⟨fun _ => "h", some "k", fun _ => FetchResult.notOk 404, fun _ => none, true⟩
      "c" ⟨[("h", CacheEntry.bad)], 0, []⟩ "k").1 rfl,
   (c7_malformed_cache_absent [("h", CacheEntry.bad)] "h"
      ⟨fun _ => "h", some "k", fun _ => FetchResult.notOk 404, fun _ => none, true⟩
      "c" ⟨[("h", CacheEntry.bad)], 0, []⟩ "k").2 rfl rfl rfl (by decide)⟩

/-- C9: with no API key and no cached verdict, the review skips the
external service entirely (zero external calls), returns the verdict
with safe true and an empty issues list, and persists exactly that
record under the document's hash; any later call on the same content
— under any environment sharing the digest function, with or without
credentials — finds that record in the cache and returns it with no
review. -/
theorem c9_missing_api_key_caches_safe
    (env env' : Env) (content : String) (s : St)
    (hk : env.apiKey = none)
    (hmiss : getCachedReview s.cache (fileHash env content) = none)
    (hw : env.cacheWritable = true)
    (hh : env'.hashFn = env.hashFn) :
    reviewSkillFile env content s =
      Except.ok (⟨true, [], fileHash env content⟩,
        ⟨(fileHash env content,
            CacheEntry.good ⟨true, [], fileHash env content⟩) :: s.cache,
          s.calls,
          s.reviewed ++ [⟨true, [], fileHash env content⟩]⟩) ∧
    getCachedReview
        ((fileHash env content,
            CacheEntry.good ⟨true, [], fileHash env content⟩) :: s.cache)
        (fileHash env content) = some ⟨true, [], fileHash env content⟩ ∧
    (∀ s2 : St,
      lookupEntry s2.cache (fileHash env content) =
        some (CacheEntry.good ⟨true, [], fileHash env content⟩) →
      reviewSkillFile env' content s2 =
        Except.ok (⟨true, [], fileHash env content⟩,
          { s2 with reviewed :=
            s2.reviewed ++ [⟨true, [], fileHash env content⟩] })) := by
  have hcall : callAnthropicReview env content s = (Except.ok ⟨true, []⟩, s) := by
    simp only [callAnthropicReview, hk]
  refine ⟨?_, getCachedReview_cons_self _ _ _, ?_⟩
  · exact reviewSkillFile_miss_success env content s ⟨true, []⟩ s hmiss hw hcall
  · intro s2 hl
    have hfh : fileHash env' content = fileHash env content := by
      simp [fileHash, hh]
    have hhit : getCachedReview s2.cache (fileHash env' content) =
        some ⟨true, [], fileHash env content⟩ := by
      rw [hfh]
      unfold getCachedReview
      rw [hl]
    exact reviewSkillFile_hit env' content s2 _ hhit

/-- Witness for C9: a concrete key-less review persists the safe
empty-issues record and a later call with credentials present returns
it from cache unchanged. -/
theorem c9_witness :
    (reviewSkillFile
        ⟨fun c => c, none, fun _ => FetchResult.notOk 500, fun _ => none, true⟩
        "doc" ⟨[], 0, []⟩ =
      Except.ok (⟨true, [], "doc"⟩,
        ⟨[("doc", CacheEntry.good ⟨true, [], "doc"⟩)], 0, [⟨true, [], "doc"⟩]⟩)) ∧
    (getCachedReview [("doc", CacheEntry.good ⟨true, [], "doc"⟩)] "doc" =
      some ⟨true, [], "doc"⟩) ∧
    (reviewSkillFile
        ⟨fun c => c, some "k", fun _ => FetchResult.notOk 500, fun _ => none, true⟩
        "doc" ⟨[("doc", CacheEntry.good ⟨true, [], "doc"⟩)], 0, []⟩ =
      Except.ok (⟨true, [], "doc"⟩,
        ⟨[("doc", CacheEntry.good ⟨true, [], "doc"⟩)], 0, [⟨true, [], "doc"⟩]⟩)) :=
  ⟨(c9_missing_api_key_caches_safe
      ⟨fun c => c, none, fun _ => FetchResult.notOk 500, fun _ => none, true⟩
      ⟨fun c => c, some "k", fun _ => FetchResult.notOk 500, fun _ => none, true⟩
      "doc" ⟨[], 0, []⟩ rfl rfl rfl rfl).1,
   (c9_missing_api_key_caches_safe
      ⟨fun c => c, none, fun _ => FetchResult.notOk 500, fun _ => none, true⟩
      ⟨fun c => c, some "k", fun _ => FetchResult.notOk 500, fun _ => none, true⟩
      "doc" ⟨[], 0, []⟩ rfl rfl rfl rfl).2.1,
   (c9_missing_api_key_caches_safe
      ⟨fun c => c, none, fun _ => FetchResult.notOk 500, fun _ => none, true⟩
      ⟨fun c => c, some "k", fun _ => FetchResult.notOk 500, fun _ => none, true⟩
      "doc" ⟨[], 0, []⟩ rfl rfl rfl rfl).2.2
      ⟨[("doc", CacheEntry.good ⟨true, [], "doc"⟩)], 0, []⟩ rfl⟩

end SafeClaw

namespace SafeClaw

/-- Helper: the external call never touches the ghost review trace. -/
theorem callAnthropicReview_snd_reviewed (env : Env) (c : String) (s : St) :
    ((callAnthropicReview env c s).2).reviewed = s.reviewed := by
  cases hk : env.apiKey with
  | none => simp only [callAnthropicReview, hk]
  | some k =>
    cases hf : env.fetch c with
    | notOk st => simp only [callAnthropicReview, hk, hf]
    | ok body =>
      cases body with
      | none => simp only [callAnthropicReview, hk, hf]
      | some envl =>
        cases hp : env.parseJson (extractText envl) with
        | none => simp only [callAnthropicReview, hk, hf, hp]
        | some v => simp only [callAnthropicReview, hk, hf, hp]

/-- Helper: a successful review appends exactly its returned record to
the ghost review trace. -/
theorem reviewSkillFile_reviewed (env : Env) (c : String) (s : St)
    (r : ReviewResult) (s' : St)
    (hok : reviewSkillFile env c s = Except.ok (r, s')) :
    s'.reviewed = s.reviewed ++ [r] := by
  cases hg : getCachedReview s.cache (fileHash env c) with
  | some cached =>
    rw [reviewSkillFile_hit env c s cached hg] at hok
    simp only [Except.ok.injEq, Prod.mk.injEq] at hok
    obtain ⟨h1, h2⟩ := hok
    subst h1
    subst h2
    rfl
  | none =>
    cases hcall : callAnthropicReview env c s with
    | mk res s1 =>
      cases res with
      | error e =>
        simp only [reviewSkillFile, hg, hcall] at hok
        exact Except.noConfusion hok
      | ok v =>
        cases hcw : env.cacheWritable with
        | false =>
          simp [reviewSkillFile, hg, hcall, cacheReview, hcw] at hok
        | true =>
          simp only [reviewSkillFile, hg, hcall, cacheReview, hcw, if_true,
            Except.ok.injEq, Prod.mk.injEq] at hok
          obtain ⟨h1, h2⟩ := hok
          subst h1
          subst h2
          have hs1 : s1.reviewed = s.reviewed := by
            have h := callAnthropicReview_snd_reviewed env c s
            rw [hcall] at h
            exact h
          simp [hs1]

/-- Helper: a successful run of the review loop reports the
conjunction of the accumulator with the safety of every record it
appended to the ghost trace. -/
theorem reviewFiles_spec (env : Env) :
    ∀ (files : List (String × FsNode)) (acc : Bool) (s : St) (b : Bool) (s' : St),
      reviewFiles env files acc s = Except.ok (b, s') →
      ∃ t : List ReviewResult, s'.reviewed = s.reviewed ++ t ∧
        b = (acc && t.all (fun r => r.safe)) := by
  intro files
  induction files with
  | nil =>
    intro acc s b s' hok
    simp only [reviewFiles, Except.ok.injEq, Prod.mk.injEq] at hok
    obtain ⟨h1, h2⟩ := hok
    subst h1
    subst h2
    exact ⟨[], by simp, by simp⟩
  | cons hd rest ih =>
    obtain ⟨p, node⟩ := hd
    cases node with
    | dir es =>
      intro acc s b s' hok
      simp [reviewFiles] at hok
    | file c =>
      intro acc s b s' hok
      simp only [reviewFiles] at hok
      cases hrf : reviewSkillFile env c s with
      | error e =>
        rw [hrf] at hok
        simp at hok
      | ok pr =>
        obtain ⟨r, s1⟩ := pr
        rw [hrf] at hok
        obtain ⟨t1, ht1, hb⟩ := ih (acc && r.safe) s1 b s' hok
        have hrev := reviewSkillFile_reviewed env c s r s1 hrf
        refine ⟨r :: t1, ?_, ?_⟩
        · rw [ht1, hrev, List.append_assoc]
          rfl
        · rw [hb, List.all_cons, Bool.and_assoc]

/-- C6: whenever the directory review completes, it returns true
exactly when every review it performed returned a safe verdict (an
unsafe verdict only clears the flag — it is logged, not thrown — and
the loop continues, as the successful completion with a false result
shows); a directory with no markdown files is vacuously safe. -/
theorem c6_directory_all_safe_iff
    (env : Env) (dirPath : String) (root : Option FsNode) (s : St) :
    (∀ b s', reviewSkillDirectory env dirPath root s = Except.ok (b, s') →
      s.reviewed = [] →
      (b = true ↔ ∀ r ∈ s'.reviewed, r.safe = true)) ∧
    reviewSkillDirectory env dirPath (some (FsNode.dir [])) s =
      Except.ok (true, s) := by
  constructor
  · intro b s' hok hini
    cases root with
    | none =>
      simp only [reviewSkillDirectory, Except.ok.injEq, Prod.mk.injEq] at hok
      obtain ⟨h1, h2⟩ := hok
      subst h1
      subst h2
      simp [hini]
    | some node =>
      cases node with
      | file c => simp [reviewSkillDirectory] at hok
      | dir entries =>
        simp only [reviewSkillDirectory] at hok
        by_cases hemp : (collectMdFiles dirPath entries).isEmpty = true
        · rw [if_pos hemp] at hok
          simp only [Except.ok.injEq, Prod.mk.injEq] at hok
          obtain ⟨h1, h2⟩ := hok
          subst h1
          subst h2
          simp [hini]
        · rw [if_neg hemp] at hok
          obtain ⟨t, ht, hb⟩ := reviewFiles_spec env _ true s b s' hok
          rw [hini] at ht
          simp only [List.nil_append] at ht
          rw [hb, ht]
          simp [List.all_eq_true]
  · rfl

/-- Witness for C6: a concrete directory holding one cached-unsafe
markdown file completes successfully (no exception) with overall
result false, matching the per-record characterization; and the
vacuous case at the same state. -/
theorem c6_witness :
    ((false = true) ↔
      ∀ r ∈ [(⟨false, ["bad instruction"], "X"⟩ : ReviewResult)],
        r.safe = true) ∧
    reviewSkillDirectory
      ⟨fun c => c, none, fun _ => FetchResult.notOk 500, fun _ => none, true⟩
      "top" (some (FsNode.dir []))
      ⟨[("X", CacheEntry.good ⟨false, ["bad instruction"], "X"⟩)], 0, []⟩ =
      Except.ok (true,
        ⟨[("X", CacheEntry.good ⟨false, ["bad instruction"], "X"⟩)], 0, []⟩) :=
  ⟨(c6_directory_all_safe_iff
      ⟨fun c => c, none, fun _ => FetchResult.notOk 500, fun _ => none, true⟩
      "top"
      (some (FsNode.dir [("skill", FsNode.dir [("a.md", FsNode.file "X")])]))
      ⟨[("X", CacheEntry.good ⟨false, ["bad instruction"], "X"⟩)], 0, []⟩).1
      false
      ⟨[("X", CacheEntry.good ⟨false, ["bad instruction"], "X"⟩)], 0,
        [⟨false, ["bad instruction"], "X"⟩]⟩
      rfl rfl,
   (c6_directory_all_safe_iff
      ⟨fun c => c, none, fun _ => FetchResult.notOk 500, fun _ => none, true⟩
      "top"
      (some (FsNode.dir [("skill", FsNode.dir [("a.md", FsNode.file "X")])]))
      ⟨[("X", CacheEntry.good ⟨false, ["bad instruction"], "X"⟩)], 0, []⟩).2⟩

/-- C10: the collected review set is exactly the children of top-level
directory entries whose name ends in `.md` — so a markdown file
sitting directly in the top directory contributes nothing (top-level
non-directory entries are skipped), anything nested deeper than one
subdirectory level is never collected, and a non-existent directory
returns true with the world untouched. -/
theorem c10_md_depth_characterization
    (base : String) (entries : List (String × FsNode)) (p : String) (n : FsNode)
    (env : Env) (dirPath : String) (s : St) :
    ((p, n) ∈ collectMdFiles base entries ↔
      ∃ d sub f, (d, FsNode.dir sub) ∈ entries ∧ (f, n) ∈ sub ∧
        strEndsWith f ".md" = true ∧ p = base ++ "/" ++ d ++ "/" ++ f) ∧
    (∀ name c rest, collectMdFiles base ((name, FsNode.file c) :: rest) =
      collectMdFiles base rest) ∧
    reviewSkillDirectory env dirPath none s = Except.ok (true, s) := by
  refine ⟨?_, fun name c rest => rfl, rfl⟩
  induction entries with
  | nil => simp [collectMdFiles]
  | cons hd rest ih =>
    obtain ⟨name, node⟩ := hd
    cases node with
    | file c =>
      rw [show collectMdFiles base ((name, FsNode.file c) :: rest) =
        collectMdFiles base rest from rfl, ih]
      constructor
      · rintro ⟨d, sub, f, hmem, hf, hend, hp⟩
        exact ⟨d, sub, f, List.mem_cons_of_mem _ hmem, hf, hend, hp⟩
      · rintro ⟨d, sub, f, hmem, hf, hend, hp⟩
        rcases List.mem_cons.mp hmem with heq | hmem'
        · exact FsNode.noConfusion (congrArg Prod.snd heq)
        · exact ⟨d, sub, f, hmem', hf, hend, hp⟩
    | dir sub0 =>
      rw [show collectMdFiles base ((name, FsNode.dir sub0) :: rest) =
        (sub0.filter (fun e => strEndsWith e.1 ".md")).map
          (fun e => (base ++ "/" ++ name ++ "/" ++ e.1, e.2)) ++
        collectMdFiles base rest from rfl]
      rw [List.mem_append, ih]
      constructor
      · rintro (hmap | hrest)
        · obtain ⟨⟨f, n0⟩, hfil, heq⟩ := List.mem_map.mp hmap
          obtain ⟨hmemsub, hend⟩ := List.mem_filter.mp hfil
          obtain ⟨hp, hn⟩ := Prod.mk.inj heq
          subst hn
          exact ⟨name, sub0, f, List.mem_cons_self _ _, hmemsub, hend, hp.symm⟩
        · obtain ⟨d, sub, f, hmem, hf, hend, hp⟩ := hrest
          exact ⟨d, sub, f, List.mem_cons_of_mem _ hmem, hf, hend, hp⟩
      · rintro ⟨d, sub, f, hmem, hf, hend, hp⟩
        rcases List.mem_cons.mp hmem with heq | hmem'
        · obtain ⟨hd1, hd2⟩ := Prod.mk.inj heq
          have hsub : sub = sub0 := by injection hd2
          left
          apply List.mem_map.mpr
          refine ⟨(f, n), List.mem_filter.mpr ⟨?_, hend⟩, ?_⟩
          · rw [← hsub]
            exact hf
          · rw [hp, hd1]
        · right
          exact ⟨d, sub, f, hmem', hf, hend, hp⟩

end SafeClaw
